import Mathlib

/-!
Shallow embedding of the Strategy-Tester backtest core
(`src/strategytester.py`, `src/tp_sl_calculator_final.py`).

Python floats are modelled as rationals (`ℚ`); exact arithmetic stands in
for IEEE arithmetic, matching the spec's "mod floating-point rounding"
reading.  The Streamlit `st.session_state.bt` dictionary becomes the
`BtState` structure, and each button handler becomes a total function on
`BtState` that returns the state unchanged on its rejection paths (the
handlers only show a message there).
-/

namespace StrategyTester

/-- Trade direction, the `"Long"` / `"Short"` radio value. -/
inductive Side
  | Long
  | Short
deriving DecidableEq

/-- The `last_calc` dictionary stored by the Backtest pane
(tp_sl_calculator_final.py lines 349-353): one computed level set. -/
structure Calc where
  side : Side
  entry : ℚ
  atr : ℚ
  sl_mult : ℚ
  sl : ℚ
  tp : ℚ
  rr : ℚ
  sl_pct : ℚ
  tp_pct : ℚ
deriving DecidableEq

/-- The `result` column of a logged trade: `"WIN"`, `"LOSS"` or `"CLOSED"`. -/
inductive TradeResult
  | WIN
  | LOSS
  | CLOSED
deriving DecidableEq

/-- One row appended by `_log_trade` (tp_sl_calculator_final.py lines 91-104).
The wall-clock `ts` string is omitted: it never feeds any computation. -/
structure Trade where
  result : TradeResult
  side : Side
  entry : ℚ
  atr : ℚ
  sl_mult : ℚ
  sl : ℚ
  tp : ℚ
  rr : ℚ
  exit_price : Option ℚ
  pct_gain : ℚ
deriving DecidableEq

/-- The `st.session_state.bt` dictionary (tp_sl_calculator_final.py
lines 59-67). -/
structure BtState where
  recording : Bool
  start_equity : Option ℚ
  equity : Option ℚ
  trades : List Trade
  last_calc : Option Calc
  summary_ready : Bool
deriving DecidableEq

/-- `TP_MULT = 2.0`: the fixed take-profit multiple. -/
def TP_MULT : ℚ := 2

/-- The `1e-12` floor used in the reward:risk denominators. -/
def EPS : ℚ := 1 / 10 ^ 12

/-- `_pct_to_tp_sl` (tp_sl_calculator_final.py lines 70-81,
strategytester.py lines 160-167 for the last two components):
returns `(dsl, dtp, sl_pct, tp_pct)`. -/
def pct_to_tp_sl (entry sl tp : ℚ) (side : Side) : ℚ × ℚ × ℚ × ℚ :=
  match side with
  | Side.Long => (entry - sl, tp - entry, |(entry - sl) / entry| * 100, |(tp - entry) / entry| * 100)
  | Side.Short => (sl - entry, entry - tp, |(sl - entry) / entry| * 100, |(entry - tp) / entry| * 100)

/-- `_pct_from_exit` (strategytester.py lines 169-170,
tp_sl_calculator_final.py lines 83-84). -/
def pct_from_exit (entry exit_price : ℚ) (side : Side) : ℚ :=
  match side with
  | Side.Long => (exit_price - entry) / entry * 100
  | Side.Short => (entry - exit_price) / entry * 100

/-- Backtest level calculation (tp_sl_calculator_final.py lines 324-334,
strategytester.py lines 350-359): SL, TP and reward:risk from entry, ATR and
the SL multiple; the TP multiple is the fixed `TP_MULT`. -/
def calcLevels (side : Side) (entry atr sl_mult : ℚ) : Calc :=
  match side with
  | Side.Long =>
      let sl := entry - sl_mult * atr
      let tp := entry + TP_MULT * atr
      let rr := (tp - entry) / max (entry - sl) EPS
      let p := pct_to_tp_sl entry sl tp Side.Long
      { side := Side.Long, entry := entry, atr := atr, sl_mult := sl_mult,
        sl := sl, tp := tp, rr := rr, sl_pct := p.2.2.1, tp_pct := p.2.2.2 }
  | Side.Short =>
      let sl := entry + sl_mult * atr
      let tp := entry - TP_MULT * atr
      let rr := (entry - tp) / max (sl - entry) EPS
      let p := pct_to_tp_sl entry sl tp Side.Short
      { side := Side.Short, entry := entry, atr := atr, sl_mult := sl_mult,
        sl := sl, tp := tp, rr := rr, sl_pct := p.2.2.1, tp_pct := p.2.2.2 }

/-- The fresh `bt` dictionary created on first load. -/
def initState : BtState :=
  { recording := false, start_equity := none, equity := none,
    trades := [], last_calc := none, summary_ready := false }

/-- Start Session handler (tp_sl_calculator_final.py lines 293-302,
strategytester.py lines 305-314): only a positive account size starts a
session; otherwise nothing changes. -/
def startSession (s : BtState) (start_equity : ℚ) : BtState :=
  if 0 < start_equity then
    { s with recording := true, start_equity := some start_equity,
             equity := some start_equity, trades := [], summary_ready := false }
  else s

/-- End Session handler (tp_sl_calculator_final.py lines 304-307):
unconditionally stops recording and readies the summary. -/
def endSession (s : BtState) : BtState :=
  { s with recording := false, summary_ready := true }

/-- End Session handler of strategytester.py (lines 320-327): guarded, a
no-op when no session is recording. -/
def st_endSession (s : BtState) : BtState :=
  if s.recording = true then
    { s with recording := false, summary_ready := true }
  else s

/-- `_compound` (tp_sl_calculator_final.py lines 86-89, strategytester.py
lines 172-175): multiplies equity by `(1 + dec_pct)`; a no-op when no
session ever started (`equity is None`). -/
def compound (s : BtState) (dec_pct : ℚ) : BtState :=
  match s.equity with
  | none => s
  | some e => { s with equity := some (e * (1 + dec_pct)) }

/-- `_log_trade`: appends one row to `trades`. -/
def logTrade (s : BtState) (t : Trade) : BtState :=
  { s with trades := s.trades ++ [t] }

/-- The row logged by Record Win (tp_sl_calculator_final.py lines 364-365). -/
def winTrade (c : Calc) : Trade :=
  { result := TradeResult.WIN, side := c.side, entry := c.entry, atr := c.atr,
    sl_mult := c.sl_mult, sl := c.sl, tp := c.tp, rr := c.rr,
    exit_price := none, pct_gain := c.tp_pct }

/-- The row logged by Record Loss (tp_sl_calculator_final.py lines 371-372). -/
def lossTrade (c : Calc) : Trade :=
  { result := TradeResult.LOSS, side := c.side, entry := c.entry, atr := c.atr,
    sl_mult := c.sl_mult, sl := c.sl, tp := c.tp, rr := c.rr,
    exit_price := none, pct_gain := -c.sl_pct }

/-- The row logged by Closed at Selected Price (tp_sl_calculator_final.py
lines 380-381). -/
def closedTrade (c : Calc) (x pct : ℚ) : Trade :=
  { result := TradeResult.CLOSED, side := c.side, entry := c.entry, atr := c.atr,
    sl_mult := c.sl_mult, sl := c.sl, tp := c.tp, rr := c.rr,
    exit_price := some x, pct_gain := pct }

/-- Recomputing the pending level set: the Backtest pane stores `last_calc`
whenever it is recording and both inputs are positive
(tp_sl_calculator_final.py lines 310, 324, 349-353); otherwise the pending
calculation is left as it was. -/
def setCalc (s : BtState) (side : Side) (entry atr sl_mult : ℚ) : BtState :=
  if s.recording = true ∧ 0 < entry ∧ 0 < atr then
    { s with last_calc := some (calcLevels side entry atr sl_mult) }
  else s

/-- Record Win handler (tp_sl_calculator_final.py lines 361-366): compounds
by `tp_pct` and logs a WIN row.  The button exists only while recording with
a computed level set, which the guard reflects. -/
def recWin (s : BtState) : BtState :=
  if s.recording = true then
    match s.last_calc with
    | none => s
    | some c => logTrade (compound s (c.tp_pct / 100)) (winTrade c)
  else s

/-- Record Loss handler (tp_sl_calculator_final.py lines 368-373): compounds
by `-sl_pct` and logs a LOSS row. -/
def recLoss (s : BtState) : BtState :=
  if s.recording = true then
    match s.last_calc with
    | none => s
    | some c => logTrade (compound s (-(c.sl_pct / 100))) (lossTrade c)
  else s

/-- Closed at Selected Price handler (tp_sl_calculator_final.py lines
375-382, strategytester.py lines 400-410): requires a positive exit price,
compounds by the directional percent and logs a CLOSED row. -/
def recClosed (s : BtState) (exit_price : ℚ) : BtState :=
  if s.recording = true then
    match s.last_calc with
    | none => s
    | some c =>
        if 0 < exit_price then
          let pct := pct_from_exit c.entry exit_price c.side
          logTrade (compound s (pct / 100)) (closedTrade c exit_price pct)
        else s
  else s

/-- Record Loss handler of strategytester.py (lines 392-398).  `_compound`
runs first; the following `_log_trade` call passes only 9 of the 10 required
positional arguments (`calc["atr"]` is missing), so Python raises
`TypeError` before anything is appended, while the equity mutation has
already persisted in `st.session_state`.  The second component is `true`
when the handler completed without raising. -/
def st_recLoss (s : BtState) : BtState × Bool :=
  if s.recording = true then
    match s.last_calc with
    | none => (s, true)
    | some c => (compound s (-(c.sl_pct / 100)), false)
  else (s, true)

/-- Modelled from the spec: `undoLast()` (§4.3) is absent from src/ (neither
file has an undo action).  Per the spec it is valid only on a non-empty
trade log, pops the last Trade, and divides equity by `(1 + pctGain/100)` of
the popped trade, with the same `ε`-style floor the code uses for its
reward:risk denominators when that factor is pathologically near zero. -/
def undoLast (s : BtState) : BtState :=
  match s.trades.getLast? with
  | none => s
  | some t =>
      let d := 1 + t.pct_gain / 100
      { s with trades := s.trades.dropLast,
               equity := s.equity.map (fun e => e / max d EPS) }

/-- Modelled from the spec: the `PartialWin` outcome kind (§4.2) is absent
from src/ (no handler in either file).  Per the spec it derives the raw
directional percent exactly as `Closed` does, rejects a raw percent ≤ 0, and
otherwise caps the gain at the level set's `tpPercent`. -/
def resolvePartWin (c : Calc) (exit_price : ℚ) : Option ℚ :=
  let raw := pct_from_exit c.entry exit_price c.side
  if raw ≤ 0 then none else some (min raw c.tp_pct)

/-- `_equity_series` (tp_sl_calculator_final.py lines 106-112) /
`_equity_series_from_trades` (strategytester.py lines 84-88), loop body. -/
def equitySeriesAux (e : ℚ) : List Trade → List ℚ
  | [] => []
  | t :: rest =>
      let e2 := e * (1 + t.pct_gain / 100)
      e2 :: equitySeriesAux e2 rest

/-- `_equity_series` / `_equity_series_from_trades`: the reconstructed
equity curve, starting from `start_equity` and compounding each trade's
`pct_gain`. -/
def equity_series (start_equity : ℚ) (trades : List Trade) : List ℚ :=
  start_equity :: equitySeriesAux start_equity trades

/-- The summary's win tally (strategytester.py line 433, 536;
tp_sl_calculator_final.py line 401): trades with `pct_gain ≥ 0`. -/
def winsCount (ts : List Trade) : ℕ :=
  (ts.filter (fun t => 0 ≤ t.pct_gain)).length

/-- The summary's loss tally (strategytester.py lines 434, 537): trades with
`pct_gain < 0`. -/
def lossesCount (ts : List Trade) : ℕ :=
  (ts.filter (fun t => t.pct_gain < 0)).length

/-- The summary's winning percentage (strategytester.py line 447,
tp_sl_calculator_final.py line 403): `wins/total·100`, and `0` on an empty
log. -/
def winRatePct (ts : List Trade) : ℚ :=
  if ts.length = 0 then 0 else (winsCount ts : ℚ) / (ts.length : ℚ) * 100

/-- The counting rule stated by the spec (§4.4): trades labelled Win, plus
Closed trades with non-negative gain.  Kept separate from `winsCount` so the
two tallies can be compared. -/
def winsSpec (ts : List Trade) : ℕ :=
  (ts.filter (fun t =>
    t.result = TradeResult.WIN ∨ (t.result = TradeResult.CLOSED ∧ 0 ≤ t.pct_gain))).length

/-- One user action against the Backtest pane (undo is spec-modelled and
kept separate). -/
inductive Action
  | startA (e : ℚ)
  | endA
  | setCalcA (side : Side) (entry atr sl_mult : ℚ)
  | winA
  | lossA
  | closedA (exit_price : ℚ)

/-- Dispatch one action to its handler. -/
def applyAction (s : BtState) : Action → BtState
  | Action.startA e => startSession s e
  | Action.endA => endSession s
  | Action.setCalcA side entry atr m => setCalc s side entry atr m
  | Action.winA => recWin s
  | Action.lossA => recLoss s
  | Action.closedA x => recClosed s x

/-- Run a sequence of actions from a state. -/
def run (s : BtState) (acts : List Action) : BtState :=
  acts.foldl applyAction s

/-- The compounding step applied by `_compound` at each record and replayed
by `_equity_series`. -/
def compoundStep (a : ℚ) (t : Trade) : ℚ :=
  a * (1 + t.pct_gain / 100)

/-- Consistency between the internally tracked equity and the equity curve
replayed from the trade log: an uninitialised ledger is empty, and an
initialised one has its equity equal to the last entry of the replayed
series. -/
def EquityInv (s : BtState) : Prop :=
  (s.start_equity = none → s.equity = none ∧ s.trades = [] ∧ s.recording = false) ∧
  (∀ e0, s.start_equity = some e0 → (equity_series e0 s.trades).getLast? = s.equity)

/-- The worked example of the spec (§8): a Long level set at
`entry=100, atr=10, slMultiple=1.0`. -/
def exCalc : Calc := calcLevels Side.Long 100 10 1

/-- Start a session at equity 1000 and compute the example level set. -/
def exActs : List Action := [Action.startA 1000, Action.setCalcA Side.Long 100 10 1]

/-- The state reached by `exActs`. -/
def exState : BtState := run initState exActs

/-- A trade labelled WIN but carrying a negative `pct_gain`: possible in an
arbitrary log (e.g. one loaded from a hand-edited CSV), never produced by
the record handlers. -/
def badTrade : Trade :=
  { result := TradeResult.WIN, side := Side.Long, entry := 100, atr := 10,
    sl_mult := 1, sl := 90, tp := 120, rr := 2, exit_price := none,
    pct_gain := -5 }

/-- A log as produced by the handlers: a win, a loss, a profitable close and
a losing close on the example level set. -/
def exLog : List Trade :=
  [winTrade exCalc, lossTrade exCalc, closedTrade exCalc 150 50,
   closedTrade exCalc 95 (-5)]

lemma getLast?_equity_series (e : ℚ) (ts : List Trade) :
    (equity_series e ts).getLast? = some (ts.foldl compoundStep e) := by
  induction ts generalizing e with
  | nil => rfl
  | cons t ts ih =>
      show ((e : ℚ) :: (e * (1 + t.pct_gain / 100))
              :: equitySeriesAux (e * (1 + t.pct_gain / 100)) ts).getLast? = _
      rw [List.getLast?_cons_cons]
      exact ih (e * (1 + t.pct_gain / 100))

lemma compound_trades (s : BtState) (d : ℚ) : (compound s d).trades = s.trades := by
  cases h : s.equity <;> simp [compound, h]

lemma compound_start_equity (s : BtState) (d : ℚ) :
    (compound s d).start_equity = s.start_equity := by
  cases h : s.equity <;> simp [compound, h]

lemma compound_recording (s : BtState) (d : ℚ) :
    (compound s d).recording = s.recording := by
  cases h : s.equity <;> simp [compound, h]

lemma compound_equity (s : BtState) (e d : ℚ) (he : s.equity = some e) :
    (compound s d).equity = some (e * (1 + d)) := by
  simp [compound, he]

lemma equityInv_init : EquityInv initState := by
  constructor
  · intro _; exact ⟨rfl, rfl, rfl⟩
  · intro e0 h; simp [initState] at h

lemma equityInv_log_compound (s : BtState) (h : EquityInv s)
    (hrec : s.recording = true) (t : Trade) (d : ℚ) (hd : d = t.pct_gain / 100) :
    EquityInv (logTrade (compound s d) t) := by
  rcases hs0 : s.start_equity with _ | e0
  · exact absurd ((h.1 hs0).2.2) (by simp [hrec])
  · have hser := h.2 e0 hs0
    rw [getLast?_equity_series] at hser
    rcases hse : s.equity with _ | e
    · rw [hse] at hser; exact absurd hser (by simp)
    · rw [hse] at hser
      constructor
      · intro hnone
        rw [logTrade] at hnone
        simp [compound_start_equity, hs0] at hnone
      · intro e1 he1
        simp only [logTrade] at he1 ⊢
        rw [compound_start_equity, hs0] at he1
        obtain rfl : e0 = e1 := by injection he1
        rw [compound_trades, getLast?_equity_series, List.foldl_append,
          compound_equity s e d hse]
        have hfold : List.foldl compoundStep e0 s.trades = e := by injection hser
        rw [hfold]
        simp [compoundStep, hd]

lemma equityInv_apply (s : BtState) (a : Action) (h : EquityInv s) :
    EquityInv (applyAction s a) := by
  cases a with
  | startA e =>
      by_cases he : 0 < e
      · refine ⟨fun h0 => ?_, fun e0 he0 => ?_⟩
        · simp [applyAction, startSession, he] at h0
        · simp only [applyAction, startSession, if_pos he] at he0 ⊢
          obtain rfl : e = e0 := by injection he0
          simp [equity_series, equitySeriesAux]
      · simpa [applyAction, startSession, he] using h
  | endA =>
      refine ⟨fun h0 => ?_, fun e0 he0 => ?_⟩
      · simp only [applyAction, endSession] at h0 ⊢
        exact ⟨(h.1 h0).1, (h.1 h0).2.1, by trivial⟩
      · simp only [applyAction, endSession] at he0 ⊢
        exact h.2 e0 he0
  | setCalcA side entry atr m =>
      by_cases hg : s.recording = true ∧ 0 < entry ∧ 0 < atr
      · refine ⟨fun h0 => ?_, fun e0 he0 => ?_⟩
        · simp only [applyAction, setCalc, if_pos hg] at h0
          exact absurd ((h.1 h0).2.2) (by simp [hg.1])
        · simp only [applyAction, setCalc, if_pos hg] at he0 ⊢
          exact h.2 e0 he0
      · simpa [applyAction, setCalc, hg] using h
  | winA =>
      by_cases hrec : s.recording = true
      · rcases hc : s.last_calc with _ | c
        · simpa [applyAction, recWin, hrec, hc] using h
        · simp only [applyAction, recWin, hrec, hc, if_pos rfl]
          exact equityInv_log_compound s h hrec (winTrade c) _ rfl
      · simpa [applyAction, recWin, hrec] using h
  | lossA =>
      by_cases hrec : s.recording = true
      · rcases hc : s.last_calc with _ | c
        · simpa [applyAction, recLoss, hrec, hc] using h
        · simp only [applyAction, recLoss, hrec, hc, if_pos rfl]
          exact equityInv_log_compound s h hrec (lossTrade c) _
            (by show -(c.sl_pct / 100) = -c.sl_pct / 100; ring)
      · simpa [applyAction, recLoss, hrec] using h
  | closedA x =>
      by_cases hrec : s.recording = true
      · rcases hc : s.last_calc with _ | c
        · simpa [applyAction, recClosed, hrec, hc] using h
        · by_cases hx : 0 < x
          · simp only [applyAction, recClosed, hrec, hc, if_pos rfl, if_pos hx]
            exact equityInv_log_compound s h hrec
              (closedTrade c x (pct_from_exit c.entry x c.side)) _ rfl
          · simpa [applyAction, recClosed, hrec, hc, hx] using h
      · simpa [applyAction, recClosed, hrec] using h

lemma equityInv_run (s : BtState) (acts : List Action) (h : EquityInv s) :
    EquityInv (run s acts) := by
  induction acts generalizing s with
  | nil => exact h
  | cons a acts ih => exact ih (applyAction s a) (equityInv_apply s a h)

lemma undo_log_compound (s : BtState) (e : ℚ) (he : s.equity = some e) (t : Trade)
    (d : ℚ) (hd : d = t.pct_gain / 100) (hEPS : EPS ≤ 1 + d) :
    undoLast (logTrade (compound s d) t) = s := by
  have hpos : (0 : ℚ) < EPS := by norm_num [EPS]
  have hne : (1 : ℚ) + d ≠ 0 := by nlinarith
  cases s with
  | mk recording start_equity equity trades last_calc summary_ready =>
      subst he
      simp only [compound, logTrade, undoLast, List.getLast?_concat,
        List.dropLast_concat, ← hd, max_eq_left hEPS]
      simp [mul_div_cancel_right₀ _ hne]

/-- C1: in a recording session with a pending level set, `undoLast` directly
after any record action (win, loss, or closed at a positive exit price)
removes the appended trade and restores the pre-record equity by dividing by
`(1 + pctGain/100)` of the stored (popped) trade, provided that factor is
not below the `ε` floor; the whole prior state is recovered exactly. -/
theorem undo_roundtrip (s : BtState) (c : Calc) (e : ℚ)
    (hrec : s.recording = true) (hc : s.last_calc = some c) (he : s.equity = some e) :
    (EPS ≤ 1 + c.tp_pct / 100 → undoLast (recWin s) = s) ∧
    (EPS ≤ 1 - c.sl_pct / 100 → undoLast (recLoss s) = s) ∧
    (∀ x, 0 < x → EPS ≤ 1 + pct_from_exit c.entry x c.side / 100 →
      undoLast (recClosed s x) = s) := by
  refine ⟨fun hE => ?_, fun hE => ?_, fun x hx hE => ?_⟩
  · simp only [recWin, hrec, hc, if_pos rfl]
    exact undo_log_compound s e he (winTrade c) _ rfl hE
  · simp only [recLoss, hrec, hc, if_pos rfl]
    exact undo_log_compound s e he (lossTrade c) _
      (by show -(c.sl_pct / 100) = -c.sl_pct / 100; ring)
      (by show EPS ≤ 1 + -(c.sl_pct / 100); linarith)
  · simp only [recClosed, hrec, hc, if_pos rfl, if_pos hx]
    exact undo_log_compound s e he (closedTrade c x _) _ rfl hE

/-- Witness for C1 at the spec's example: record a full-TP win from equity
1000 and undo it. -/
theorem undo_roundtrip_witness :
    exState.recording = true ∧ exState.last_calc = some exCalc ∧
    exState.equity = some 1000 ∧ EPS ≤ 1 + exCalc.tp_pct / 100 ∧
    undoLast (recWin exState) = exState := by
  have h1 : exState.recording = true := by
    norm_num [exState, exActs, run, applyAction, startSession, setCalc]
  have h2 : exState.last_calc = some exCalc := by
    norm_num [exState, exActs, exCalc, run, applyAction, startSession, setCalc]
  have h3 : exState.equity = some 1000 := by
    norm_num [exState, exActs, run, applyAction, startSession, setCalc]
  have h4 : EPS ≤ 1 + exCalc.tp_pct / 100 := by
    norm_num [EPS, exCalc, calcLevels, pct_to_tp_sl, TP_MULT, abs_of_nonneg]
  exact ⟨h1, h2, h3, h4, (undo_roundtrip exState exCalc 1000 h1 h2 h3).1 h4⟩

/-- C2: after any sequence of backtest actions, replaying the trade log from
the session's starting equity through `_equity_series` (the fold
`equity *= (1 + pctGain/100)`) ends at exactly the ledger's internally
tracked equity. -/
theorem equity_curve_matches_ledger (acts : List Action) (e0 : ℚ)
    (h : (run initState acts).start_equity = some e0) :
    (equity_series e0 (run initState acts).trades).getLast?
      = (run initState acts).equity :=
  (equityInv_run initState acts equityInv_init).2 e0 h

/-- Witness for C2: start at 1000, compute the example levels, record a win
and a loss; the replayed curve ends at the tracked equity. -/
theorem equity_curve_matches_ledger_witness :
    (run initState (exActs ++ [Action.winA, Action.lossA])).start_equity = some 1000 ∧
    (equity_series 1000 (run initState (exActs ++ [Action.winA, Action.lossA])).trades).getLast?
      = (run initState (exActs ++ [Action.winA, Action.lossA])).equity := by
  have h : (run initState (exActs ++ [Action.winA, Action.lossA])).start_equity = some 1000 := by
    norm_num [exActs, run, applyAction, startSession, setCalc, recWin, recLoss,
      compound, logTrade]
  exact ⟨h, equity_curve_matches_ledger (exActs ++ [Action.winA, Action.lossA]) 1000 h⟩

/-- C9: every rejection path of the core operations — non-positive starting
equity, not recording, no pending calculation, non-positive exit price,
non-positive entry or ATR, empty trade log for undo — is a no-op: the prior
state is returned entirely unchanged (the handlers only display a message,
none of them raises). -/
theorem rejected_ops_unchanged (s : BtState) :
    (∀ e, e ≤ 0 → startSession s e = s) ∧
    (s.recording = false →
      recWin s = s ∧ recLoss s = s ∧ (∀ x, recClosed s x = s) ∧ st_endSession s = s) ∧
    (s.last_calc = none → recWin s = s ∧ recLoss s = s ∧ (∀ x, recClosed s x = s)) ∧
    (∀ x, x ≤ 0 → recClosed s x = s) ∧
    (∀ side entry atr m, entry ≤ 0 ∨ atr ≤ 0 → setCalc s side entry atr m = s) ∧
    (s.trades = [] → undoLast s = s) := by
  refine ⟨?_, ?_, ?_, ?_, ?_, ?_⟩
  · intro e hle; simp [startSession, not_lt.2 hle]
  · intro hrec
    exact ⟨by simp [recWin, hrec], by simp [recLoss, hrec],
      fun x => by simp [recClosed, hrec], by simp [st_endSession, hrec]⟩
  · intro hc
    refine ⟨?_, ?_, fun x => ?_⟩ <;>
      by_cases hrec : s.recording = true <;>
        simp [recWin, recLoss, recClosed, hrec, hc]
  · intro x hx
    by_cases hrec : s.recording = true
    · rcases hc : s.last_calc with _ | c <;> simp [recClosed, hrec, hc, not_lt.2 hx]
    · simp [recClosed, hrec]
  · intro side entry atr m hbad
    have hng : ¬ (s.recording = true ∧ 0 < entry ∧ 0 < atr) := by
      rintro ⟨_, h1, h2⟩
      rcases hbad with h | h
      · exact absurd h1 (not_lt.2 h)
      · exact absurd h2 (not_lt.2 h)
    simp [setCalc, hng]
  · intro ht; simp [undoLast, ht]

/-- Witness for C9: concrete rejected operations on concrete states, each
leaving the state untouched. -/
theorem rejected_ops_unchanged_witness :
    startSession initState (-5) = initState ∧
    recWin initState = initState ∧
    recClosed exState 0 = exState ∧
    setCalc initState Side.Long (-1) 10 1 = initState ∧
    undoLast initState = initState :=
  ⟨(rejected_ops_unchanged initState).1 (-5) (by norm_num),
   ((rejected_ops_unchanged initState).2.1 rfl).1,
   (rejected_ops_unchanged exState).2.2.2.1 0 le_rfl,
   (rejected_ops_unchanged initState).2.2.2.2.1 Side.Long (-1) 10 1 (Or.inl (by norm_num)),
   (rejected_ops_unchanged initState).2.2.2.2.2 rfl⟩

/-- C3 (divergence in strategytester.py): with the example level set pending
at equity 1000, strategytester.py's Record Loss handler compounds equity to
900 but then calls `_log_trade` with 9 of its 10 required positional
arguments (`calc["atr"]` is missing), so it raises `TypeError` (flag
`false`) and appends no trade; tp_sl_calculator_final.py's handler, embedded
as `recLoss`, appends the LOSS row the claim describes. -/
theorem st_recLoss_raises_no_trade :
    (st_recLoss exState).2 = false ∧
    (st_recLoss exState).1.trades = exState.trades ∧
    exState.equity = some 1000 ∧
    (st_recLoss exState).1.equity = some 900 ∧
    (recLoss exState).trades = exState.trades ++ [lossTrade exCalc] := by
  refine ⟨?_, ?_, ?_, ?_, ?_⟩ <;>
    norm_num [exState, exActs, exCalc, run, applyAction, startSession, setCalc,
      st_recLoss, recLoss, compound, logTrade, calcLevels, pct_to_tp_sl,
      TP_MULT, abs_of_nonneg]

/-- C4: the spec-modelled `PartialWin` resolver rejects a non-positive raw
directional percent and otherwise caps the gain at `tpPercent`, so a raw
percent above `tpPercent` yields exactly `tpPercent`; the `Closed` kind, in
contrast, records the raw percent without any cap. -/
theorem partial_win_capped (c : Calc) (x : ℚ) :
    (pct_from_exit c.entry x c.side ≤ 0 → resolvePartWin c x = none) ∧
    (0 < pct_from_exit c.entry x c.side →
      resolvePartWin c x = some (min (pct_from_exit c.entry x c.side) c.tp_pct)) ∧
    (0 ≤ c.tp_pct → c.tp_pct < pct_from_exit c.entry x c.side →
      resolvePartWin c x = some c.tp_pct) ∧
    (∀ s : BtState, s.recording = true → s.last_calc = some c → 0 < x →
      (recClosed s x).trades
        = s.trades ++ [closedTrade c x (pct_from_exit c.entry x c.side)]) := by
  refine ⟨fun h => ?_, fun h => ?_, fun h0 h => ?_, fun s hrec hc hx => ?_⟩
  · simp [resolvePartWin, h]
  · simp [resolvePartWin, not_le.2 h]
  · have hpos : 0 < pct_from_exit c.entry x c.side := lt_of_le_of_lt h0 h
    simp [resolvePartWin, not_le.2 hpos, min_eq_right (le_of_lt h)]
  · simp [recClosed, hrec, hc, hx, logTrade, compound_trades]

/-- Witness for C4 at the example Long level set: exit 90 gives raw −10 and
is rejected; exit 150 gives raw 50, capped to the full `tpPercent` 20. -/
theorem partial_win_capped_witness :
    (pct_from_exit exCalc.entry 90 exCalc.side ≤ 0 ∧ resolvePartWin exCalc 90 = none) ∧
    ((0 : ℚ) ≤ exCalc.tp_pct ∧
      exCalc.tp_pct < pct_from_exit exCalc.entry 150 exCalc.side ∧
      resolvePartWin exCalc 150 = some exCalc.tp_pct) := by
  have ha : pct_from_exit exCalc.entry 90 exCalc.side ≤ 0 := by
    norm_num [exCalc, calcLevels, pct_to_tp_sl, pct_from_exit, TP_MULT]
  have hb : (0 : ℚ) ≤ exCalc.tp_pct := by
    norm_num [exCalc, calcLevels, pct_to_tp_sl, TP_MULT, abs_of_nonneg]
  have hcℓ : exCalc.tp_pct < pct_from_exit exCalc.entry 150 exCalc.side := by
    norm_num [exCalc, calcLevels, pct_to_tp_sl, pct_from_exit, TP_MULT, abs_of_nonneg]
  exact ⟨⟨ha, (partial_win_capped exCalc 90).1 ha⟩,
         ⟨hb, hcℓ, (partial_win_capped exCalc 150).2.2.1 hb hcℓ⟩⟩

/-- C5: a Closed record at any positive exit price applies exactly the raw
directional percent — `(exit − entry)/entry·100` for Long and
`(entry − exit)/entry·100` for Short — to both the equity and the logged
trade, with no clamping to `[−slPercent, tpPercent]`: the update is the same
expression whatever the percent's magnitude. -/
theorem closed_unclamped (s : BtState) (c : Calc) (e x : ℚ)
    (hrec : s.recording = true) (hc : s.last_calc = some c) (he : s.equity = some e)
    (hx : 0 < x) :
    recClosed s x = { s with
        equity := some (e * (1 + pct_from_exit c.entry x c.side / 100)),
        trades := s.trades ++ [closedTrade c x (pct_from_exit c.entry x c.side)] } ∧
    (c.side = Side.Long → pct_from_exit c.entry x c.side = (x - c.entry) / c.entry * 100) ∧
    (c.side = Side.Short → pct_from_exit c.entry x c.side = (c.entry - x) / c.entry * 100) := by
  refine ⟨?_, fun hside => ?_, fun hside => ?_⟩
  · simp [recClosed, hrec, hc, hx, logTrade, compound, he]
  · simp [pct_from_exit, hside]
  · simp [pct_from_exit, hside]

/-- Witness for C5: closing the example Long setup at 150 — far beyond the
take-profit level 120 — records the raw +50% unclamped and compounds equity
to 1500. -/
theorem closed_unclamped_witness :
    exState.recording = true ∧ exState.last_calc = some exCalc ∧
    exState.equity = some 1000 ∧ (0 : ℚ) < 150 ∧
    exCalc.tp_pct < pct_from_exit exCalc.entry 150 exCalc.side ∧
    recClosed exState 150 = { exState with
        equity := some (1000 * (1 + pct_from_exit exCalc.entry 150 exCalc.side / 100)),
        trades := exState.trades ++ [closedTrade exCalc 150 (pct_from_exit exCalc.entry 150 exCalc.side)] } := by
  have h1 : exState.recording = true := by
    norm_num [exState, exActs, run, applyAction, startSession, setCalc]
  have h2 : exState.last_calc = some exCalc := by
    norm_num [exState, exActs, exCalc, run, applyAction, startSession, setCalc]
  have h3 : exState.equity = some 1000 := by
    norm_num [exState, exActs, run, applyAction, startSession, setCalc]
  have h5 : exCalc.tp_pct < pct_from_exit exCalc.entry 150 exCalc.side := by
    norm_num [exCalc, calcLevels, pct_to_tp_sl, pct_from_exit, TP_MULT, abs_of_nonneg]
  exact ⟨h1, h2, h3, by norm_num, h5,
    (closed_unclamped exState exCalc 1000 150 h1 h2 h3 (by norm_num)).1⟩

/-- C6: for positive entry, ATR and SL multiple (with the fixed TP multiple
2.0) the calculator returns `stopLoss = entry − slMultiple·atr`,
`takeProfit = entry + tpMultiple·atr` and
`rewardRisk = (takeProfit − entry)/max(entry − stopLoss, 1e-12)` for Long,
symmetrically for Short; on `entry=100, atr=10, Long, slMultiple=1.0` this
gives `stopLoss=90, takeProfit=120, rewardRisk=2.0, slPercent=10.0,
tpPercent=20.0`. -/
theorem level_calc_formulas (entry atr m : ℚ)
    (he : 0 < entry) (ha : 0 < atr) (hm : 0 < m) :
    ((calcLevels Side.Long entry atr m).sl = entry - m * atr ∧
     (calcLevels Side.Long entry atr m).tp = entry + TP_MULT * atr ∧
     (calcLevels Side.Long entry atr m).rr
       = ((calcLevels Side.Long entry atr m).tp - entry)
           / max (entry - (calcLevels Side.Long entry atr m).sl) EPS) ∧
    ((calcLevels Side.Short entry atr m).sl = entry + m * atr ∧
     (calcLevels Side.Short entry atr m).tp = entry - TP_MULT * atr ∧
     (calcLevels Side.Short entry atr m).rr
       = (entry - (calcLevels Side.Short entry atr m).tp)
           / max ((calcLevels Side.Short entry atr m).sl - entry) EPS) ∧
    (TP_MULT = 2 ∧
     calcLevels Side.Long 100 10 1
       = ⟨Side.Long, 100, 10, 1, 90, 120, 2, 10, 20⟩) := by
  refine ⟨⟨rfl, rfl, rfl⟩, ⟨rfl, rfl, rfl⟩, rfl, ?_⟩
  norm_num [calcLevels, pct_to_tp_sl, TP_MULT, EPS, max_def, abs_of_nonneg,
    Calc.mk.injEq]

/-- Witness for C6 at the spec's worked example. -/
theorem level_calc_formulas_witness :
    (0 : ℚ) < 100 ∧ (0 : ℚ) < 10 ∧ (0 : ℚ) < 1 ∧
    calcLevels Side.Long 100 10 1 = ⟨Side.Long, 100, 10, 1, 90, 120, 2, 10, 20⟩ :=
  ⟨by norm_num, by norm_num, by norm_num,
   (level_calc_formulas 100 10 1 (by norm_num) (by norm_num) (by norm_num)).2.2.2⟩

/-- C7: for positive entry, ATR and SL multiple the levels are ordered
`stopLoss < entry < takeProfit` for Long and
`takeProfit < entry < stopLoss` for Short, and the two percentage distances
are non-negative for both sides. -/
theorem level_ordering (entry atr m : ℚ)
    (he : 0 < entry) (ha : 0 < atr) (hm : 0 < m) :
    ((calcLevels Side.Long entry atr m).sl < entry ∧
     entry < (calcLevels Side.Long entry atr m).tp) ∧
    ((calcLevels Side.Short entry atr m).tp < entry ∧
     entry < (calcLevels Side.Short entry atr m).sl) ∧
    (0 ≤ (calcLevels Side.Long entry atr m).sl_pct ∧
     0 ≤ (calcLevels Side.Long entry atr m).tp_pct ∧
     0 ≤ (calcLevels Side.Short entry atr m).sl_pct ∧
     0 ≤ (calcLevels Side.Short entry atr m).tp_pct) := by
  have hma : 0 < m * atr := mul_pos hm ha
  refine ⟨⟨?_, ?_⟩, ⟨?_, ?_⟩, ?_, ?_, ?_, ?_⟩ <;>
    simp [calcLevels, pct_to_tp_sl, TP_MULT] <;>
    linarith

/-- Witness for C7 at the worked example. -/
theorem level_ordering_witness :
    (0 : ℚ) < 100 ∧ (0 : ℚ) < 10 ∧ (0 : ℚ) < 1 ∧
    (calcLevels Side.Long 100 10 1).sl < 100 ∧
    (100 : ℚ) < (calcLevels Side.Long 100 10 1).tp ∧
    0 ≤ (calcLevels Side.Long 100 10 1).sl_pct :=
  ⟨by norm_num, by norm_num, by norm_num,
   ((level_ordering 100 10 1 (by norm_num) (by norm_num) (by norm_num)).1).1,
   ((level_ordering 100 10 1 (by norm_num) (by norm_num) (by norm_num)).1).2,
   ((level_ordering 100 10 1 (by norm_num) (by norm_num) (by norm_num)).2.2).1⟩

lemma winsCount_add_lossesCount (ts : List Trade) :
    winsCount ts + lossesCount ts = ts.length := by
  induction ts with
  | nil => rfl
  | cons t ts ih =>
      simp only [winsCount, lossesCount, List.filter_cons, List.length_cons] at ih ⊢
      by_cases hp : 0 ≤ t.pct_gain
      · simp [hp, not_lt.2 hp]
        omega
      · simp [hp, not_le.1 hp]
        omega

/-- C8 counterexample: the code tallies wins purely by the sign of
`pct_gain`, not by label, so on a log holding one WIN-labelled trade with
`pct_gain = −5` the code counts 0 wins while the claim's rule (label Win
plus Closed with non-negative gain) counts 1. -/
theorem wins_tally_counterexample :
    badTrade.result = TradeResult.WIN ∧
    winsCount [badTrade] = 0 ∧ winsSpec [badTrade] = 1 ∧
    winsCount [badTrade] ≠ winsSpec [badTrade] := by
  refine ⟨rfl, ?_, ?_, ?_⟩ <;>
    norm_num [winsCount, winsSpec, badTrade, List.filter_cons]

/-- C8 (amended): the code counts a win as any trade with `pct_gain ≥ 0`,
irrespective of its label.  On a log in which every WIN trade has
non-negative gain and every LOSS trade negative gain — as holds for every
log the record handlers produce — this coincides with the claim's rule
(label Win plus Closed with `pct_gain ≥ 0`); losses are the exact
complement (`wins + losses = totalTrades`) and the winning percentage is
`wins/totalTrades·100`, defined as 0 on an empty log. -/
theorem wins_tally_amended (ts : List Trade)
    (h : ∀ t ∈ ts, (t.result = TradeResult.WIN → 0 ≤ t.pct_gain) ∧
                   (t.result = TradeResult.LOSS → t.pct_gain < 0)) :
    winsCount ts = winsSpec ts ∧
    winsCount ts + lossesCount ts = ts.length ∧
    winRatePct ts
      = (if ts.length = 0 then 0 else (winsCount ts : ℚ) / (ts.length : ℚ) * 100) := by
  refine ⟨?_, winsCount_add_lossesCount ts, rfl⟩
  induction ts with
  | nil => rfl
  | cons t ts ih =>
      have ht := h t (List.mem_cons_self t ts)
      have ih' := ih (fun t' ht' => h t' (List.mem_cons_of_mem t ht'))
      simp only [winsCount, winsSpec, List.filter_cons] at ih' ⊢
      cases hr : t.result with
      | WIN =>
          have hp : 0 ≤ t.pct_gain := ht.1 hr
          simp [hr, hp, ih']
      | LOSS =>
          have hp : t.pct_gain < 0 := ht.2 hr
          simp [hr, not_le.2 hp, ih']
      | CLOSED =>
          by_cases hp : 0 ≤ t.pct_gain
          · simp [hr, hp, ih']
          · simp [hr, hp, ih']

/-- Witness for the amended C8 on a concrete handler-shaped log: 2 wins by
both counting rules, and wins + losses = 4. -/
theorem wins_tally_amended_witness :
    (∀ t ∈ exLog, (t.result = TradeResult.WIN → 0 ≤ t.pct_gain) ∧
                  (t.result = TradeResult.LOSS → t.pct_gain < 0)) ∧
    winsCount exLog = winsSpec exLog ∧
    winsCount exLog + lossesCount exLog = exLog.length := by
  have h : ∀ t ∈ exLog, (t.result = TradeResult.WIN → 0 ≤ t.pct_gain) ∧
      (t.result = TradeResult.LOSS → t.pct_gain < 0) := by
    intro t ht
    fin_cases ht <;>
      constructor <;>
        intro hlab <;>
          first
            | exact absurd hlab (by decide)
            | norm_num [winTrade, lossTrade, closedTrade, exCalc, calcLevels,
                pct_to_tp_sl, TP_MULT, abs_of_nonneg]
  exact ⟨h, (wins_tally_amended exLog h).1, (wins_tally_amended exLog h).2.1⟩

/-- C10: on a level set computed from positive entry, ATR and SL multiple,
`tpPercent = tpMultiple·atr/entry·100 > 0` and
`slPercent = slMultiple·atr/entry·100 > 0`, so the trade appended by Record
Win carries a strictly positive `pct_gain` and the one appended by Record
Loss a strictly negative one: a sign-based tally never misclassifies
either. -/
theorem win_loss_signs (side : Side) (entry atr m : ℚ)
    (he : 0 < entry) (ha : 0 < atr) (hm : 0 < m)
    (s : BtState) (hrec : s.recording = true)
    (hc : s.last_calc = some (calcLevels side entry atr m)) :
    (calcLevels side entry atr m).tp_pct = TP_MULT * atr / entry * 100 ∧
    (calcLevels side entry atr m).sl_pct = m * atr / entry * 100 ∧
    (recWin s).trades = s.trades ++ [winTrade (calcLevels side entry atr m)] ∧
    (winTrade (calcLevels side entry atr m)).pct_gain
      = (calcLevels side entry atr m).tp_pct ∧
    0 < (winTrade (calcLevels side entry atr m)).pct_gain ∧
    (recLoss s).trades = s.trades ++ [lossTrade (calcLevels side entry atr m)] ∧
    (lossTrade (calcLevels side entry atr m)).pct_gain
      = -(calcLevels side entry atr m).sl_pct ∧
    (lossTrade (calcLevels side entry atr m)).pct_gain < 0 := by
  have hTP : (0 : ℚ) < TP_MULT := by norm_num [TP_MULT]
  have htp : (calcLevels side entry atr m).tp_pct = TP_MULT * atr / entry * 100 := by
    cases side with
    | Long =>
        show |(entry + TP_MULT * atr - entry) / entry| * 100 = TP_MULT * atr / entry * 100
        rw [show entry + TP_MULT * atr - entry = TP_MULT * atr from by ring,
          abs_of_nonneg (div_nonneg (mul_nonneg hTP.le ha.le) he.le)]
    | Short =>
        show |(entry - (entry - TP_MULT * atr)) / entry| * 100 = TP_MULT * atr / entry * 100
        rw [show entry - (entry - TP_MULT * atr) = TP_MULT * atr from by ring,
          abs_of_nonneg (div_nonneg (mul_nonneg hTP.le ha.le) he.le)]
  have hsl : (calcLevels side entry atr m).sl_pct = m * atr / entry * 100 := by
    cases side with
    | Long =>
        show |(entry - (entry - m * atr)) / entry| * 100 = m * atr / entry * 100
        rw [show entry - (entry - m * atr) = m * atr from by ring,
          abs_of_nonneg (div_nonneg (mul_nonneg hm.le ha.le) he.le)]
    | Short =>
        show |(entry + m * atr - entry) / entry| * 100 = m * atr / entry * 100
        rw [show entry + m * atr - entry = m * atr from by ring,
          abs_of_nonneg (div_nonneg (mul_nonneg hm.le ha.le) he.le)]
  have htp_pos : 0 < (calcLevels side entry atr m).tp_pct := by
    rw [htp]
    have := div_pos (mul_pos hTP ha) he
    linarith
  have hsl_pos : 0 < (calcLevels side entry atr m).sl_pct := by
    rw [hsl]
    have := div_pos (mul_pos hm ha) he
    linarith
  refine ⟨htp, hsl, ?_, rfl, htp_pos, ?_, rfl, by simpa [lossTrade] using hsl_pos⟩
  · simp [recWin, hrec, hc, logTrade, compound_trades]
  · simp [recLoss, hrec, hc, logTrade, compound_trades]

/-- Witness for C10 on the example level set: the win row carries +20, the
loss row −10. -/
theorem win_loss_signs_witness :
    (0 : ℚ) < 100 ∧ (0 : ℚ) < 10 ∧ (0 : ℚ) < 1 ∧
    exState.recording = true ∧
    exState.last_calc = some (calcLevels Side.Long 100 10 1) ∧
    0 < (winTrade (calcLevels Side.Long 100 10 1)).pct_gain ∧
    (lossTrade (calcLevels Side.Long 100 10 1)).pct_gain < 0 := by
  have h1 : exState.recording = true := by
    norm_num [exState, exActs, run, applyAction, startSession, setCalc]
  have h2 : exState.last_calc = some (calcLevels Side.Long 100 10 1) := by
    norm_num [exState, exActs, run, applyAction, startSession, setCalc]
  have main := win_loss_signs Side.Long 100 10 1 (by norm_num) (by norm_num)
    (by norm_num) exState h1 h2
  exact ⟨by norm_num, by norm_num, by norm_num, h1, h2, main.2.2.2.2.1, main.2.2.2.2.2.2.2⟩

end StrategyTester
